import Mathlib

/-!
# AAAA cache of `dns.go`

A shallow embedding of `src/dns.go`: the `Dns` cache, `NewDns`, `lookupAAAA`,
`AAAA` and the body of `cacheWorker`.

* The answer of `net.LookupIP` and the reading of `time.Now()` are inputs of
  the functions that trigger them, since both come from the environment.
* `time.Time` is an instant counted in nanoseconds (`Int`), so that
  `t.Add(d)` is `t + d` and `t.Before(u)` is `t < u`.
* The mutex `d.lock` is not a field: `Lock`/`Unlock` are recorded, in program
  order, in the list of events every function returns next to its result.
* `net.IP` is a byte slice; `To4`, `To16` and `String` follow the Go standard
  library (`net/ip.go`, `net/netip/netip.go`).
-/

namespace DnsCache

/-! ## `net.IP` -/

/-- A `net.IP` value: a slice of bytes. -/
structure IP where
  bytes : List (Fin 256)
deriving DecidableEq, Repr

/-- Go `isZeros`: every byte of the slice is zero. -/
def isZeros (p : List (Fin 256)) : Bool :=
  p.all (fun b => b == 0)

/-- Go `v4InV6Prefix`: ten zero bytes followed by `ff ff`. -/
def v4InV6Prefix : List (Fin 256) :=
  [0, 0, 0, 0, 0, 0, 0, 0, 0, 0, 0xff, 0xff]

/-- Go `IP.To4`: the 4-byte form of an IPv4 address, `none` for Go's `nil`. -/
def IP.To4 (ip : IP) : Option IP :=
  if ip.bytes.length = 4 then some ip
  else if ip.bytes.length = 16 ∧ isZeros (ip.bytes.take 10) = true
      ∧ ip.bytes[10]? = some 0xff ∧ ip.bytes[11]? = some 0xff then
    some ⟨(ip.bytes.take 16).drop 12⟩
  else none

/-- Go `IP.To16`: the 16-byte form of an address, `none` for Go's `nil`. -/
def IP.To16 (ip : IP) : Option IP :=
  if ip.bytes.length = 4 then some ⟨v4InV6Prefix ++ ip.bytes⟩
  else if ip.bytes.length = 16 then some ip
  else none

/-- Go `hexDigit`: the table `"0123456789abcdef"`. -/
def hexDigits : List Char :=
  ['0', '1', '2', '3', '4', '5', '6', '7', '8', '9', 'a', 'b', 'c', 'd', 'e', 'f']

/-- Indexing into `hexDigit`. -/
def hexDigit (i : Nat) : Char :=
  hexDigits.getD i '0'

/-- Go `appendHex` at `uint16`: hexadecimal without leading zeros. -/
def appendHex (b : List Char) (x : Nat) : List Char :=
  let b := if x ≥ 0x1000 then b ++ [hexDigit (x >>> 12 &&& 0xf)] else b
  let b := if x ≥ 0x100 then b ++ [hexDigit (x >>> 8 &&& 0xf)] else b
  let b := if x ≥ 0x10 then b ++ [hexDigit (x >>> 4 &&& 0xf)] else b
  b ++ [hexDigit (x &&& 0xf)]

/-- Go `digits`: the table `"0123456789"`. -/
def digits : List Char :=
  ['0', '1', '2', '3', '4', '5', '6', '7', '8', '9']

/-- Go `appendDecimal` at `uint8`: decimal without leading zeros. -/
def appendDecimal (b : List Char) (x : Nat) : List Char :=
  let b := if x ≥ 100 then b ++ [digits.getD (x / 100) '0'] else b
  let b := if x ≥ 10 then b ++ [digits.getD (x / 10 % 10) '0'] else b
  b ++ [digits.getD (x % 10) '0']

/-- Go `hexString`: two hexadecimal digits for every byte. -/
def hexString (b : List (Fin 256)) : List Char :=
  b.foldr (fun x acc => hexDigit (x.val >>> 4) :: hexDigit (x.val &&& 0xf) :: acc) []

/-- Go `Addr.v6u16`: the `i`-th 16-bit field of a 16-byte address. -/
def v6u16 (b : List (Fin 256)) (i : Nat) : Nat :=
  (b.getD (2 * i) 0).val * 256 + (b.getD (2 * i + 1) 0).val

/-- The inner loop of `appendTo6`: `for j < 8 && ip.v6u16(j) == 0 { j++ }`. -/
def skipZeros (b : List (Fin 256)) : Nat → Nat → Nat
  | 0, j => j
  | fuel + 1, j => if j < 8 ∧ v6u16 b j = 0 then skipZeros b fuel (j + 1) else j

/-- The first loop of `appendTo6`: `(zeroStart, zeroEnd)`, the leftmost longest
run of at least two zero fields, `(255, 255)` when there is none. -/
def zeroRun (b : List (Fin 256)) : Nat × Nat :=
  (List.range 8).foldl
    (fun z i =>
      let j := skipZeros b 8 i
      let l := j - i
      if l ≥ 2 ∧ l > z.2 - z.1 then (i, j) else z)
    (255, 255)

/-- The second loop of `appendTo6`, from field `i` on, with `ret` written so
far; `fuel` bounds the number of passes (eight suffice). -/
def writeFields (b : List (Fin 256)) (zeroStart zeroEnd : Nat) :
    Nat → Nat → List Char → List Char
  | 0, _, ret => ret
  | fuel + 1, i, ret =>
    if i < 8 then
      if i = zeroStart then
        let ret := ret ++ [':', ':']
        let i := zeroEnd
        if i ≥ 8 then ret
        else writeFields b zeroStart zeroEnd fuel (i + 1) (appendHex ret (v6u16 b i))
      else
        let ret := if i > 0 then ret ++ [':'] else ret
        writeFields b zeroStart zeroEnd fuel (i + 1) (appendHex ret (v6u16 b i))
    else ret

/-- Go `Addr.appendTo6` for an address without zone. -/
def appendTo6 (b : List (Fin 256)) : List Char :=
  writeFields b (zeroRun b).1 (zeroRun b).2 8 0 []

/-- Go `Addr.string4`: dotted decimal. -/
def string4 (b : List (Fin 256)) : List Char :=
  let ret := appendDecimal [] (b.getD 0 0).val ++ ['.']
  let ret := appendDecimal ret (b.getD 1 0).val ++ ['.']
  let ret := appendDecimal ret (b.getD 2 0).val ++ ['.']
  appendDecimal ret (b.getD 3 0).val

/-- Go `IP.String` (named `string` here, `IP.String` would shadow the type of
strings): `"<nil>"` for the empty slice, `"?"` and the hex dump for a slice
that is neither 4 nor 16 bytes long, dotted decimal when `To4` succeeds, the
IPv6 text otherwise. -/
def IP.string (ip : IP) : String :=
  if ip.bytes.length = 0 then "<nil>"
  else if ip.bytes.length ≠ 4 ∧ ip.bytes.length ≠ 16 then String.mk ('?' :: hexString ip.bytes)
  else
    match ip.To4 with
    | some p4 => String.mk (string4 p4.bytes)
    | none => String.mk (appendTo6 ip.bytes)

/-! ## The cache -/

/-- Go `CacheEntry`. -/
structure CacheEntry where
  AAAA : String
  Timestamp : Int
deriving DecidableEq, Repr

/-- A Go `error` value: one handed back by `net.LookupIP`, or one built by
`fmt.Errorf` with the given text. -/
inductive GoError where
  | resolver (detail : String)
  | errorf (msg : String)
deriving DecidableEq, Repr

/-- What one call of `net.LookupIP` returns: `(ips, nil)` or `(nil, err)`. -/
inductive LookupIPResult where
  | ok (ips : List IP)
  | err (e : GoError)
deriving DecidableEq, Repr

/-- Go `map[string]CacheEntry`, as a list of key-value pairs. -/
abbrev CacheMap := List (String × CacheEntry)

/-- Reading `m[k]` with the comma-ok form. -/
def mapGet (m : CacheMap) (k : String) : Option CacheEntry :=
  List.lookup k m

/-- Go `delete(m, k)`. -/
def mapDelete (m : CacheMap) (k : String) : CacheMap :=
  m.filter (fun p => p.1 != k)

/-- Go `m[k] = v`. -/
def mapSet (m : CacheMap) (k : String) (v : CacheEntry) : CacheMap :=
  (k, v) :: mapDelete m k

/-- Go `Dns`, without the mutex (see `Event`). `ttl` is a `uint16`; as a
natural number it covers every `uint16`, and no arithmetic on it wraps:
`time.Second * time.Duration(ttl)` is at most `65535 * 10^9 < 2^63`. -/
structure Dns where
  shouldCache : Bool
  cache : CacheMap
  ttl : Nat
deriving DecidableEq, Repr

/-- What a goroutine does to the shared state, in program order. -/
inductive Event where
  | lock
  | unlock
  | lookupIP (host : String) (res : LookupIPResult)
  | mapRead (host : String)
  | mapCopy
  | mapWrite (host : String) (entry : CacheEntry)
  | mapDelete (host : String)
deriving DecidableEq, Repr

/-- Go `NewDns`. -/
def NewDns (cache : Bool) (ttl : Nat) : Dns :=
  { shouldCache := cache, cache := [], ttl := ttl }

/-- The test of the loop in `lookupAAAA`: `ip.To4() == nil && ip.To16() != nil`. -/
def isAAAA (ip : IP) : Bool :=
  ip.To4 == none && ip.To16 != none

/-- The loop of `lookupAAAA`: `aaaa` starts empty and takes the text of the
first address passing the test, where the loop breaks. -/
def selectAAAA : List IP → String
  | [] => ""
  | ip :: rest => if isAAAA ip then ip.string else selectAAAA rest

/-- The outcome of a call: value, state afterwards, events in order. -/
structure Outcome (α : Type) where
  result : α
  dns : Dns
  trace : List Event

/-- Go `Dns.lookupAAAA`; `res` is what `net.LookupIP(host)` answers and `now`
what `time.Now()` reads. -/
def lookupAAAA (d : Dns) (host : String) (res : LookupIPResult) (now : Int) :
    Outcome (Except GoError CacheEntry) :=
  match res with
  | .err e => ⟨.error e, d, [.lookupIP host res]⟩
  | .ok ips =>
    let aaaa := selectAAAA ips
    if aaaa.length = 0 then
      ⟨.error (.errorf ("could not find AAAA record for " ++ host)), d, [.lookupIP host res]⟩
    else
      let entry : CacheEntry := { AAAA := aaaa, Timestamp := now }
      if d.shouldCache then
        ⟨.ok entry, { d with cache := mapSet d.cache host entry },
          [.lookupIP host res, .lock, .mapWrite host entry, .unlock]⟩
      else
        ⟨.ok entry, d, [.lookupIP host res]⟩

/-- Go `Dns.AAAA`; `res` and `now` are used only when the map has no entry. -/
def AAAA (d : Dns) (host : String) (res : LookupIPResult) (now : Int) :
    Outcome (Except GoError String) :=
  match mapGet d.cache host with
  | some cached => ⟨.ok cached.AAAA, d, [.lock, .mapRead host, .unlock]⟩
  | none =>
    let r := lookupAAAA d host res now
    match r.result with
    | .error e => ⟨.error e, r.dns, [.lock, .mapRead host, .unlock] ++ r.trace⟩
    | .ok cacheEntry => ⟨.ok cacheEntry.AAAA, r.dns, [.lock, .mapRead host, .unlock] ++ r.trace⟩

/-- Go `time.Second * time.Duration(ttl)`, in nanoseconds. -/
def ttlDuration (ttl : Nat) : Int :=
  1000000000 * (ttl : Int)

/-- The body of the `for host, entry := range cacheCopy` loop of
`cacheWorker`. `time.Now()` is read once: inside `lookupAAAA` when it
succeeds, in the condition when it fails. -/
def sweepStep (d : Dns) (host : String) (entry : CacheEntry) (res : LookupIPResult)
    (now : Int) : Outcome Unit :=
  let r := lookupAAAA d host res now
  match r.result with
  | .ok _ => ⟨(), r.dns, r.trace⟩
  | .error _ =>
    if entry.Timestamp + ttlDuration d.ttl < now then
      ⟨(), { r.dns with cache := mapDelete r.dns.cache host },
        r.trace ++ [.lock, .mapDelete host, .unlock]⟩
    else ⟨(), r.dns, r.trace⟩

/-- What the environment supplies to one pass of the range loop: which of the
pairs not yet visited comes next (Go leaves the order of a map range open),
the answer of `net.LookupIP` and the reading of `time.Now()`. -/
structure Tick where
  pick : Nat
  res : LookupIPResult
  now : Int

/-- The `for host, entry := range cacheCopy` loop of `cacheWorker` over the
pairs `rest` not yet visited; the first argument counts them. -/
def rangeLoop (env : Nat → Tick) : Nat → List (String × CacheEntry) → Dns → Outcome Unit
  | 0, _, d => ⟨(), d, []⟩
  | n + 1, rest, d =>
    match rest[(env n).pick % rest.length]? with
    | none => ⟨(), d, []⟩
    | some (host, entry) =>
      let s := sweepStep d host entry (env n).res (env n).now
      let r := rangeLoop env n (rest.eraseIdx ((env n).pick % rest.length)) s.dns
      ⟨(), r.dns, s.trace ++ r.trace⟩

/-- One iteration of the `for` loop of `cacheWorker`, up to the sleep. -/
def cacheWorkerIteration (d : Dns) (env : Nat → Tick) : Outcome Unit :=
  let cacheCopy := d.cache
  let r := rangeLoop env cacheCopy.length cacheCopy d
  ⟨(), r.dns, [.lock, .mapCopy, .unlock] ++ r.trace⟩

/-! ## The cache and its worker as a transition system -/

/-- The shared `Dns` together with the pairs of the worker's `cacheCopy` that
its range loop has not visited yet. -/
structure Sys where
  dns : Dns
  cacheCopy : List (String × CacheEntry)

/-- The steps of the system: a call of `AAAA`, the worker copying the map at
the start of an iteration, the worker visiting one pair of its copy. -/
inductive Action where
  | callAAAA (host : String) (res : LookupIPResult) (now : Int)
  | workerCopy
  | workerVisit (pick : Nat) (res : LookupIPResult) (now : Int)

/-- One step; `none` when the step is not enabled (the worker copies the map
only once its previous copy is exhausted, and visits only pairs of its copy). -/
def step (s : Sys) : Action → Option (Sys × List Event)
  | .callAAAA host res now =>
    let r := AAAA s.dns host res now
    some ({ s with dns := r.dns }, r.trace)
  | .workerCopy =>
    if s.cacheCopy.isEmpty then
      some ({ s with cacheCopy := s.dns.cache }, [.lock, .mapCopy, .unlock])
    else none
  | .workerVisit pick res now =>
    match s.cacheCopy[pick % s.cacheCopy.length]? with
    | none => none
    | some (host, entry) =>
      let r := sweepStep s.dns host entry res now
      some (⟨r.dns, s.cacheCopy.eraseIdx (pick % s.cacheCopy.length)⟩, r.trace)

/-- A sequence of steps, with the events of all of them. -/
def run (s : Sys) : List Action → Option (Sys × List Event)
  | [] => some (s, [])
  | a :: rest =>
    match step s a with
    | none => none
    | some (s1, t1) =>
      match run s1 rest with
      | none => none
      | some (s2, t2) => some (s2, t1 ++ t2)

/-- The system right after `NewDns(cache, ttl)`. -/
def start (cache : Bool) (ttl : Nat) : Sys :=
  ⟨NewDns cache ttl, []⟩

/-! ## Predicates on traces and answers -/

/-- The calls of `net.LookupIP` in a trace. -/
def resolverCalls (t : List Event) : List Event :=
  t.filter (fun e => match e with
    | .lookupIP _ _ => true
    | _ => false)

/-- The deletions in a trace. -/
def deletions (t : List Event) : List Event :=
  t.filter (fun e => match e with
    | .mapDelete _ => true
    | _ => false)

/-- The map writes in a trace. -/
def writes (t : List Event) : List Event :=
  t.filter (fun e => match e with
    | .mapWrite _ _ => true
    | _ => false)

/-- Reading a trace with the lock `held` or not: `Lock` needs the lock free,
`Unlock` needs it held, a resolver call needs it free, a map access needs it
held, and the trace ends with the lock free. -/
def lockDiscipline : Bool → List Event → Bool
  | held, [] => !held
  | held, .lock :: t => !held && lockDiscipline true t
  | held, .unlock :: t => held && lockDiscipline false t
  | held, .lookupIP _ _ :: t => !held && lockDiscipline held t
  | held, .mapRead _ :: t => held && lockDiscipline held t
  | held, .mapCopy :: t => held && lockDiscipline held t
  | held, .mapWrite _ _ :: t => held && lockDiscipline held t
  | held, .mapDelete _ :: t => held && lockDiscipline held t

/-- The resolution of a host fails in `lookupAAAA`: `net.LookupIP` returns an
error, or no returned address passes the test of the loop. -/
def resolutionFails : LookupIPResult → Prop
  | .err _ => True
  | .ok ips => ∀ ip ∈ ips, ¬ (ip.To4 = none ∧ ip.To16 ≠ none)

/-- The resolver calls that a list of steps makes through `AAAA` when every
call misses the map. -/
def aaaaCalls : List Action → List Event
  | [] => []
  | .callAAAA host res _ :: rest => .lookupIP host res :: aaaaCalls rest
  | _ :: rest => aaaaCalls rest

/-- The step resolves a host and that resolution fails. -/
def failingStep : Action → Prop
  | .callAAAA _ res _ => resolutionFails res
  | .workerCopy => False
  | .workerVisit _ res _ => resolutionFails res

/-- The pair `(host, entry)` is backed by the trace `tr`: the address of the
entry is a non-empty text, and `tr` has a resolver call for `host` that
returned an address `ip` with `To4() == nil` and `To16() != nil` whose text it
is. -/
def EntryJustified (tr : List Event) (p : String × CacheEntry) : Prop :=
  p.2.AAAA ≠ "" ∧
    ∃ ips ip, Event.lookupIP p.1 (.ok ips) ∈ tr ∧ ip ∈ ips ∧
      (ip.To4 = none ∧ ip.To16 ≠ none) ∧ p.2.AAAA = ip.string

/-! ## Sample addresses and a sample run -/

/-- The address `fe80::1`. -/
def fe80_1 : IP := ⟨[0xfe, 0x80, 0, 0, 0, 0, 0, 0, 0, 0, 0, 0, 0, 0, 0, 1]⟩

/-- The address `::2`. -/
def v6_2 : IP := ⟨[0, 0, 0, 0, 0, 0, 0, 0, 0, 0, 0, 0, 0, 0, 0, 2]⟩

/-- The address `10.0.0.1` in its 4-byte form. -/
def v4_10 : IP := ⟨[10, 0, 0, 1]⟩

/-- The address `10.0.0.1` in its 16-byte form, as `net.IPv4` builds it. -/
def v4_10m : IP := ⟨[0, 0, 0, 0, 0, 0, 0, 0, 0, 0, 0xff, 0xff, 10, 0, 0, 1]⟩

/-- A run used as a concrete instance: `AAAA("h")` stores `fe80::1`, the
worker copies the map and its re-resolution of `h` fails within the grace
period, then `AAAA("g")` stores `::2`. -/
def demoActions : List Action :=
  [.callAAAA "h" (.ok [v4_10m, fe80_1, v6_2]) 5, .workerCopy,
    .workerVisit 0 (.err (.resolver "no such host")) 10, .callAAAA "g" (.ok [v6_2]) 6]

/-- The state `demoActions` leads to from `NewDns(true, 30)`. -/
def demoState : Sys :=
  ⟨⟨true, [("g", ⟨"::2", 6⟩), ("h", ⟨"fe80::1", 5⟩)], 30⟩, []⟩

/-- The events of `demoActions` from `NewDns(true, 30)`. -/
def demoTrace : List Event :=
  [.lock, .mapRead "h", .unlock, .lookupIP "h" (.ok [v4_10m, fe80_1, v6_2]),
    .lock, .mapWrite "h" ⟨"fe80::1", 5⟩, .unlock,
    .lock, .mapCopy, .unlock,
    .lookupIP "h" (.err (.resolver "no such host")),
    .lock, .mapRead "g", .unlock, .lookupIP "g" (.ok [v6_2]),
    .lock, .mapWrite "g" ⟨"::2", 6⟩, .unlock]

/-! ## Facts about `net.IP` -/

theorem isAAAA_iff (ip : IP) : isAAAA ip = true ↔ ip.To4 = none ∧ ip.To16 ≠ none := by
  simp [isAAAA]

theorem length_of_isAAAA {ip : IP} (h : isAAAA ip = true) : ip.bytes.length = 16 := by
  rw [isAAAA_iff] at h
  obtain ⟨h4, h16⟩ := h
  by_cases l4 : ip.bytes.length = 4
  · simp [IP.To4, l4] at h4
  · by_cases l16 : ip.bytes.length = 16
    · exact l16
    · simp [IP.To16, l4, l16] at h16

theorem appendHex_length (b : List Char) (x : Nat) : b.length < (appendHex b x).length := by
  unfold appendHex
  simp only []
  split_ifs <;> simp

theorem writeFields_length (b : List (Fin 256)) (zs ze : Nat) :
    ∀ (fuel i : Nat) (ret : List Char), ret.length ≤ (writeFields b zs ze fuel i ret).length := by
  intro fuel
  induction fuel with
  | zero => intro i ret; simp [writeFields]
  | succ n ih =>
    intro i ret
    unfold writeFields
    simp only []
    split_ifs
    · simp
    · have h1 := ih (ze + 1) (appendHex (ret ++ [':', ':']) (v6u16 b ze))
      have h2 := appendHex_length (ret ++ [':', ':']) (v6u16 b ze)
      simp at h2
      omega
    · have h1 := ih (i + 1) (appendHex (ret ++ [':']) (v6u16 b i))
      have h2 := appendHex_length (ret ++ [':']) (v6u16 b i)
      simp at h2
      omega
    · have h1 := ih (i + 1) (appendHex ret (v6u16 b i))
      have h2 := appendHex_length ret (v6u16 b i)
      omega
    · exact le_refl _

theorem appendTo6_length (b : List (Fin 256)) : 0 < (appendTo6 b).length := by
  unfold appendTo6 writeFields
  simp only []
  split_ifs
  · simp
  · have h1 := writeFields_length b (zeroRun b).1 (zeroRun b).2 7 ((zeroRun b).2 + 1)
      (appendHex ([] ++ [':', ':']) (v6u16 b (zeroRun b).2))
    have h2 := appendHex_length ([] ++ [':', ':']) (v6u16 b (zeroRun b).2)
    omega
  · omega
  · have h1 := writeFields_length b (zeroRun b).1 (zeroRun b).2 7 (0 + 1) (appendHex [] (v6u16 b 0))
    have h2 := appendHex_length [] (v6u16 b 0)
    omega
  · omega

/-- The text forms Go prints, on sample addresses. -/
theorem string_samples :
    fe80_1.string = "fe80::1" ∧ v6_2.string = "::2" ∧ v4_10.string = "10.0.0.1" ∧
      v4_10m.string = "10.0.0.1" ∧
      (IP.mk [0, 0, 0, 0, 0, 0, 0, 0, 0, 0, 0, 0, 0, 0, 0, 0]).string = "::" ∧
      (IP.mk [0x20, 1, 0xd, 0xb8, 0, 0, 0, 0, 0, 1, 0, 0, 0, 0, 0, 1]).string
        = "2001:db8::1:0:0:1" ∧
      (IP.mk [0x20, 1, 0xd, 0xb8, 0, 0, 0, 1, 0, 1, 0, 1, 0, 1, 0, 1]).string
        = "2001:db8:0:1:1:1:1:1" ∧
      (IP.mk [1, 2, 0xab]).string = "?0102ab" ∧ (IP.mk []).string = "<nil>" := by
  decide

/-- The text of an address passing the test of `lookupAAAA` is the IPv6 text. -/
theorem string_of_isAAAA {ip : IP} (h : isAAAA ip = true) :
    ip.string = String.mk (appendTo6 ip.bytes) := by
  have hl := length_of_isAAAA h
  have h4 := ((isAAAA_iff ip).1 h).1
  simp [IP.string, hl, h4]

/-- The text of an address passing the test of `lookupAAAA` is not empty. -/
theorem string_length_of_isAAAA {ip : IP} (h : isAAAA ip = true) : 0 < ip.string.length := by
  rw [string_of_isAAAA h]
  exact appendTo6_length ip.bytes

/-! ## Facts about the selection loop -/

theorem selectAAAA_first (pre post : List IP) (ip : IP)
    (hpre : ∀ x ∈ pre, isAAAA x = false) (hip : isAAAA ip = true) :
    selectAAAA (pre ++ ip :: post) = ip.string := by
  induction pre with
  | nil => simp [selectAAAA, hip]
  | cons x xs ih =>
    have hx : isAAAA x = false := hpre x (by simp)
    have hxs : ∀ y ∈ xs, isAAAA y = false := fun y hy => hpre y (by simp [hy])
    simp [selectAAAA, hx, ih hxs]

theorem selectAAAA_none (ips : List IP) (h : ∀ x ∈ ips, isAAAA x = false) :
    selectAAAA ips = "" := by
  induction ips with
  | nil => rfl
  | cons x xs ih =>
    have hx : isAAAA x = false := h x (by simp)
    simp [selectAAAA, hx, ih (fun y hy => h y (by simp [hy]))]

/-- Splitting a list at its first address that passes the test. -/
theorem exists_first (ips : List IP) (h : ∃ x ∈ ips, isAAAA x = true) :
    ∃ pre ip post, ips = pre ++ ip :: post ∧ (∀ x ∈ pre, isAAAA x = false) ∧ isAAAA ip = true := by
  induction ips with
  | nil => simp at h
  | cons x xs ih =>
    by_cases hx : isAAAA x = true
    · exact ⟨[], x, xs, by simp, by simp, hx⟩
    · have hx2 : isAAAA x = false := by simpa using hx
      have : ∃ y ∈ xs, isAAAA y = true := by
        obtain ⟨y, hy, hy2⟩ := h
        rcases List.mem_cons.1 hy with rfl | hy3
        · exact absurd hy2 hx
        · exact ⟨y, hy3, hy2⟩
      obtain ⟨pre, ip, post, e, hp, hi⟩ := ih this
      refine ⟨x :: pre, ip, post, by simp [e], ?_, hi⟩
      intro z hz
      rcases List.mem_cons.1 hz with rfl | hz2
      · exact hx2
      · exact hp z hz2

theorem selectAAAA_length_eq_zero (ips : List IP) :
    (selectAAAA ips).length = 0 ↔ ∀ x ∈ ips, isAAAA x = false := by
  constructor
  · intro h x hx
    by_contra hc
    have hc2 : isAAAA x = true := by simpa using hc
    obtain ⟨pre, ip, post, e, hp, hi⟩ := exists_first ips ⟨x, hx, hc2⟩
    rw [e, selectAAAA_first pre post ip hp hi] at h
    have := string_length_of_isAAAA hi
    omega
  · intro h
    rw [selectAAAA_none ips h]
    rfl

theorem resolutionFails_ok (ips : List IP) :
    resolutionFails (.ok ips) ↔ ∀ x ∈ ips, isAAAA x = false := by
  simp only [resolutionFails]
  constructor
  · intro h x hx
    have := h x hx
    rw [← isAAAA_iff] at this
    simpa using this
  · intro h x hx
    rw [← isAAAA_iff, h x hx]
    simp

/-! ## Facts about the map -/

theorem mapDelete_cons_eq (m : CacheMap) (k : String) (b : CacheEntry) :
    mapDelete ((k, b) :: m) k = mapDelete m k := by
  simp [mapDelete, List.filter_cons]

theorem mapDelete_cons_ne (m : CacheMap) (a k : String) (b : CacheEntry) (h : a ≠ k) :
    mapDelete ((a, b) :: m) k = (a, b) :: mapDelete m k := by
  simp [mapDelete, List.filter_cons, h]

theorem mapGet_cons_eq (m : CacheMap) (k : String) (b : CacheEntry) :
    mapGet ((k, b) :: m) k = some b := by
  simp [mapGet, List.lookup]

theorem mapGet_cons_ne (m : CacheMap) (a k : String) (b : CacheEntry) (h : k ≠ a) :
    mapGet ((a, b) :: m) k = mapGet m k := by
  have h2 : (k == a) = false := by simpa using h
  simp [mapGet, List.lookup, h2]

theorem mapGet_mapDelete_self (m : CacheMap) (k : String) : mapGet (mapDelete m k) k = none := by
  induction m with
  | nil => rfl
  | cons p ps ih =>
    obtain ⟨a, b⟩ := p
    by_cases h : a = k
    · rw [h, mapDelete_cons_eq]
      exact ih
    · rw [mapDelete_cons_ne _ _ _ _ h, mapGet_cons_ne _ _ _ _ (fun e => h e.symm)]
      exact ih

theorem mapGet_mapDelete_other (m : CacheMap) (k k2 : String) (hk : k2 ≠ k) :
    mapGet (mapDelete m k) k2 = mapGet m k2 := by
  induction m with
  | nil => rfl
  | cons p ps ih =>
    obtain ⟨a, b⟩ := p
    by_cases h : a = k
    · rw [h, mapDelete_cons_eq, mapGet_cons_ne _ _ _ _ hk]
      exact ih
    · rw [mapDelete_cons_ne _ _ _ _ h]
      by_cases h3 : k2 = a
      · rw [h3, mapGet_cons_eq, mapGet_cons_eq]
      · rw [mapGet_cons_ne _ _ _ _ h3, mapGet_cons_ne _ _ _ _ h3]
        exact ih

theorem mapGet_mapSet_self (m : CacheMap) (k : String) (v : CacheEntry) :
    mapGet (mapSet m k v) k = some v := by
  rw [mapSet, mapGet_cons_eq]

theorem mapGet_mapSet_other (m : CacheMap) (k k2 : String) (v : CacheEntry) (hk : k2 ≠ k) :
    mapGet (mapSet m k v) k2 = mapGet m k2 := by
  rw [mapSet, mapGet_cons_ne _ _ _ _ hk]
  exact mapGet_mapDelete_other m k k2 hk

theorem mem_mapDelete {m : CacheMap} {k : String} {p : String × CacheEntry}
    (h : p ∈ mapDelete m k) : p ∈ m ∧ p.1 ≠ k := by
  simpa [mapDelete, List.mem_filter] using h

/-! ## Facts about `lookupAAAA`, `AAAA` and the sweep step -/

theorem lookupAAAA_err (d : Dns) (host : String) (e : GoError) (now : Int) :
    lookupAAAA d host (.err e) now = ⟨.error e, d, [.lookupIP host (.err e)]⟩ := rfl

theorem lookupAAAA_noAAAA (d : Dns) (host : String) (ips : List IP) (now : Int)
    (h : ∀ x ∈ ips, isAAAA x = false) :
    lookupAAAA d host (.ok ips) now =
      ⟨.error (.errorf ("could not find AAAA record for " ++ host)), d,
        [.lookupIP host (.ok ips)]⟩ := by
  have hl := (selectAAAA_length_eq_zero ips).2 h
  simp [lookupAAAA, hl]

theorem lookupAAAA_found (d : Dns) (host : String) (ips : List IP) (now : Int)
    (h : ∃ x ∈ ips, isAAAA x = true) :
    lookupAAAA d host (.ok ips) now =
      if d.shouldCache then
        ⟨.ok ⟨selectAAAA ips, now⟩, { d with cache := mapSet d.cache host ⟨selectAAAA ips, now⟩ },
          [.lookupIP host (.ok ips), .lock, .mapWrite host ⟨selectAAAA ips, now⟩, .unlock]⟩
      else ⟨.ok ⟨selectAAAA ips, now⟩, d, [.lookupIP host (.ok ips)]⟩ := by
  have hl : ¬ (selectAAAA ips).length = 0 := by
    intro hc
    obtain ⟨x, hx, hx2⟩ := h
    have := (selectAAAA_length_eq_zero ips).1 hc x hx
    simp [hx2] at this
  simp [lookupAAAA, hl]

/-- The resolution fails exactly when `lookupAAAA` returns an error, and then
the state is the one before the call and the only event is the resolver call. -/
theorem lookupAAAA_fails (d : Dns) (host : String) (res : LookupIPResult) (now : Int)
    (h : resolutionFails res) :
    ∃ e, lookupAAAA d host res now = ⟨.error e, d, [.lookupIP host res]⟩ := by
  cases res with
  | err e => exact ⟨e, rfl⟩
  | ok ips =>
    exact ⟨_, lookupAAAA_noAAAA d host ips now ((resolutionFails_ok ips).1 h)⟩

theorem exists_isAAAA_of_not_fails (ips : List IP) (h : ¬ resolutionFails (.ok ips)) :
    ∃ x ∈ ips, isAAAA x = true := by
  rw [resolutionFails_ok] at h
  push_neg at h
  obtain ⟨x, hx, hx2⟩ := h
  exact ⟨x, hx, by simpa using hx2⟩

/-- The code's `err != nil` after `lookupAAAA` is the failure of the
resolution: a resolver error, or no returned address passing the test. -/
theorem lookupAAAA_error_iff (d : Dns) (host : String) (res : LookupIPResult) (now : Int) :
    (∃ e, (lookupAAAA d host res now).result = .error e) ↔ resolutionFails res := by
  constructor
  · rintro ⟨e, he⟩
    by_contra hf
    cases res with
    | err e2 => exact hf trivial
    | ok ips =>
      rw [lookupAAAA_found d host ips now (exists_isAAAA_of_not_fails ips hf)] at he
      by_cases hc : d.shouldCache = true
      · simp [hc] at he
      · simp [hc] at he
  · intro hf
    obtain ⟨e, he⟩ := lookupAAAA_fails d host res now hf
    exact ⟨e, by rw [he]⟩

theorem exists_isAAAA_of_qualifies (ips : List IP)
    (h : ∃ ip ∈ ips, ip.To4 = none ∧ ip.To16 ≠ none) : ∃ x ∈ ips, isAAAA x = true := by
  obtain ⟨x, hx, hx2⟩ := h
  exact ⟨x, hx, (isAAAA_iff x).2 hx2⟩

theorem AAAA_hit (d : Dns) (host : String) (res : LookupIPResult) (now : Int)
    (cached : CacheEntry) (h : mapGet d.cache host = some cached) :
    AAAA d host res now = ⟨.ok cached.AAAA, d, [.lock, .mapRead host, .unlock]⟩ := by
  simp [AAAA, h]

theorem AAAA_miss_fails (d : Dns) (host : String) (res : LookupIPResult) (now : Int)
    (h : mapGet d.cache host = none) (hf : resolutionFails res) :
    ∃ e, lookupAAAA d host res now = ⟨.error e, d, [.lookupIP host res]⟩ ∧
      AAAA d host res now =
        ⟨.error e, d, [.lock, .mapRead host, .unlock, .lookupIP host res]⟩ := by
  obtain ⟨e, he⟩ := lookupAAAA_fails d host res now hf
  exact ⟨e, he, by simp [AAAA, h, he]⟩

theorem AAAA_miss_found (d : Dns) (host : String) (ips : List IP) (now : Int)
    (h : mapGet d.cache host = none) (hq : ∃ x ∈ ips, isAAAA x = true) :
    AAAA d host (.ok ips) now =
      if d.shouldCache then
        ⟨.ok (selectAAAA ips), { d with cache := mapSet d.cache host ⟨selectAAAA ips, now⟩ },
          [.lock, .mapRead host, .unlock, .lookupIP host (.ok ips), .lock,
            .mapWrite host ⟨selectAAAA ips, now⟩, .unlock]⟩
      else
        ⟨.ok (selectAAAA ips), d, [.lock, .mapRead host, .unlock, .lookupIP host (.ok ips)]⟩ := by
  by_cases hc : d.shouldCache = true
  · simp [AAAA, h, lookupAAAA_found d host ips now hq, hc]
  · simp [AAAA, h, lookupAAAA_found d host ips now hq, hc]

theorem sweepStep_fails (d : Dns) (host : String) (entry : CacheEntry) (res : LookupIPResult)
    (now : Int) (hf : resolutionFails res) :
    sweepStep d host entry res now =
      if entry.Timestamp + ttlDuration d.ttl < now then
        ⟨(), { d with cache := mapDelete d.cache host },
          [.lookupIP host res, .lock, .mapDelete host, .unlock]⟩
      else ⟨(), d, [.lookupIP host res]⟩ := by
  obtain ⟨e, he⟩ := lookupAAAA_fails d host res now hf
  simp [sweepStep, he]

theorem sweepStep_found (d : Dns) (host : String) (entry : CacheEntry) (ips : List IP)
    (now : Int) (hq : ∃ x ∈ ips, isAAAA x = true) :
    sweepStep d host entry (.ok ips) now =
      if d.shouldCache then
        ⟨(), { d with cache := mapSet d.cache host ⟨selectAAAA ips, now⟩ },
          [.lookupIP host (.ok ips), .lock, .mapWrite host ⟨selectAAAA ips, now⟩, .unlock]⟩
      else ⟨(), d, [.lookupIP host (.ok ips)]⟩ := by
  by_cases hc : d.shouldCache = true
  · simp [sweepStep, lookupAAAA_found d host ips now hq, hc]
  · simp [sweepStep, lookupAAAA_found d host ips now hq, hc]

/-! ## The claims -/

/-- C1: with caching enabled and no entry for `h`, when the resolver answer
holds an address with `To4() == nil` and `To16() != nil`, `AAAA(h)` succeeds
with an address `a`, and an `AAAA(h)` right after it returns the same `a`
with no resolver call in its trace, whatever answer `res2` and clock reading
`now2` the environment holds ready for that second call. -/
theorem C1_cache_hit (d : Dns) (h : String) (ips : List IP) (now : Int)
    (res2 : LookupIPResult) (now2 : Int)
    (hcache : d.shouldCache = true) (hmiss : mapGet d.cache h = none)
    (hq : ∃ ip ∈ ips, ip.To4 = none ∧ ip.To16 ≠ none) :
    ∃ a, (AAAA d h (.ok ips) now).result = .ok a ∧
      (AAAA (AAAA d h (.ok ips) now).dns h res2 now2).result = .ok a ∧
      resolverCalls (AAAA (AAAA d h (.ok ips) now).dns h res2 now2).trace = [] := by
  have hq2 := exists_isAAAA_of_qualifies ips hq
  have h1 := AAAA_miss_found d h ips now hmiss hq2
  rw [if_pos hcache] at h1
  have h2 : mapGet (AAAA d h (.ok ips) now).dns.cache h = some ⟨selectAAAA ips, now⟩ := by
    rw [h1]
    exact mapGet_mapSet_self _ _ _
  have h3 := AAAA_hit (AAAA d h (.ok ips) now).dns h res2 now2 _ h2
  refine ⟨selectAAAA ips, ?_, ?_, ?_⟩
  · rw [h1]
  · rw [h3]
  · rw [h3]
    rfl

/-- C1 at `NewDns(true, 30)`, host `h`, answer `[fe80::1]`. -/
theorem C1_cache_hit_witness :
    ∃ a, (AAAA (NewDns true 30) "h" (.ok [fe80_1]) 7).result = .ok a ∧
      (AAAA (AAAA (NewDns true 30) "h" (.ok [fe80_1]) 7).dns "h"
        (.err (.resolver "no such host")) 9).result = .ok a ∧
      resolverCalls (AAAA (AAAA (NewDns true 30) "h" (.ok [fe80_1]) 7).dns "h"
        (.err (.resolver "no such host")) 9).trace = [] :=
  C1_cache_hit (NewDns true 30) "h" [fe80_1] 7 (.err (.resolver "no such host")) 9 rfl rfl
    ⟨fe80_1, by simp, by decide⟩

/-- C2: when the list returned for `h` holds an address with `To4() == nil`
and `To16() != nil`, it splits as `pre ++ ip :: post` where no address of
`pre` passes that test and `ip` does, `lookupAAAA(h)` returns the text of
`ip`, and with caching enabled that entry is the one stored under `h`. For
`[10.0.0.1, fe80::1, ::2]` (the IPv4 address in its 4-byte or its 16-byte
form) the result is `fe80::1`, which differs from `::2`. -/
theorem C2_selection_rule :
    (∀ (d : Dns) (h : String) (ips : List IP) (now : Int),
      (∃ ip ∈ ips, ip.To4 = none ∧ ip.To16 ≠ none) →
      ∃ pre ip post, ips = pre ++ ip :: post ∧
        (∀ x ∈ pre, ¬ (x.To4 = none ∧ x.To16 ≠ none)) ∧
        (ip.To4 = none ∧ ip.To16 ≠ none) ∧
        (lookupAAAA d h (.ok ips) now).result = .ok ⟨ip.string, now⟩ ∧
        (d.shouldCache = true →
          mapGet (lookupAAAA d h (.ok ips) now).dns.cache h = some ⟨ip.string, now⟩)) ∧
    (∀ (d : Dns) (h : String) (now : Int),
      (lookupAAAA d h (.ok [v4_10, fe80_1, v6_2]) now).result = .ok ⟨"fe80::1", now⟩ ∧
      (lookupAAAA d h (.ok [v4_10m, fe80_1, v6_2]) now).result = .ok ⟨"fe80::1", now⟩ ∧
      (d.shouldCache = true →
        mapGet (lookupAAAA d h (.ok [v4_10, fe80_1, v6_2]) now).dns.cache h
          = some ⟨"fe80::1", now⟩) ∧
      v6_2.string = "::2" ∧ "fe80::1" ≠ "::2") := by
  have gen : ∀ (d : Dns) (h : String) (ips : List IP) (now : Int),
      (∃ x ∈ ips, isAAAA x = true) →
      ∃ pre ip post, ips = pre ++ ip :: post ∧
        (∀ x ∈ pre, ¬ (x.To4 = none ∧ x.To16 ≠ none)) ∧
        (ip.To4 = none ∧ ip.To16 ≠ none) ∧
        (lookupAAAA d h (.ok ips) now).result = .ok ⟨ip.string, now⟩ ∧
        (d.shouldCache = true →
          mapGet (lookupAAAA d h (.ok ips) now).dns.cache h = some ⟨ip.string, now⟩) := by
    intro d h ips now hq2
    obtain ⟨pre, ip, post, e, hp, hi⟩ := exists_first ips hq2
    have hsel : selectAAAA ips = ip.string := by rw [e]; exact selectAAAA_first pre post ip hp hi
    have hl := lookupAAAA_found d h ips now hq2
    refine ⟨pre, ip, post, e, ?_, (isAAAA_iff ip).1 hi, ?_, ?_⟩
    · intro x hx hc
      have := hp x hx
      rw [(isAAAA_iff x).2 hc] at this
      exact Bool.noConfusion this
    · rw [hl, ← hsel]
      by_cases hc : d.shouldCache = true <;> simp [hc]
    · intro hc
      rw [hl, if_pos hc, ← hsel]
      exact mapGet_mapSet_self _ _ _
  refine ⟨fun d h ips now hq => gen d h ips now (exists_isAAAA_of_qualifies ips hq), ?_⟩
  intro d h now
  have q1 : ∃ x ∈ [v4_10, fe80_1, v6_2], isAAAA x = true := ⟨fe80_1, by simp, by decide⟩
  have q2 : ∃ x ∈ [v4_10m, fe80_1, v6_2], isAAAA x = true := ⟨fe80_1, by simp, by decide⟩
  have s1 : selectAAAA [v4_10, fe80_1, v6_2] = "fe80::1" := by decide
  have s2 : selectAAAA [v4_10m, fe80_1, v6_2] = "fe80::1" := by decide
  have l1 := lookupAAAA_found d h _ now q1
  have l2 := lookupAAAA_found d h _ now q2
  rw [s1] at l1
  rw [s2] at l2
  refine ⟨?_, ?_, ?_, by decide, by decide⟩
  · rw [l1]
    by_cases hc : d.shouldCache = true <;> simp [hc]
  · rw [l2]
    by_cases hc : d.shouldCache = true <;> simp [hc]
  · intro hc
    rw [l1, if_pos hc]
    exact mapGet_mapSet_self _ _ _

/-- C2 at `NewDns(true, 30)`, host `h`, answer `[10.0.0.1, fe80::1, ::2]`. -/
theorem C2_selection_rule_witness :
    ∃ pre ip post, [v4_10m, fe80_1, v6_2] = pre ++ ip :: post ∧
      (∀ x ∈ pre, ¬ (x.To4 = none ∧ x.To16 ≠ none)) ∧
      (ip.To4 = none ∧ ip.To16 ≠ none) ∧
      (lookupAAAA (NewDns true 30) "h" (.ok [v4_10m, fe80_1, v6_2]) 7).result
        = .ok ⟨ip.string, 7⟩ ∧
      ((NewDns true 30).shouldCache = true →
        mapGet (lookupAAAA (NewDns true 30) "h" (.ok [v4_10m, fe80_1, v6_2]) 7).dns.cache "h"
          = some ⟨ip.string, 7⟩) :=
  C2_selection_rule.1 (NewDns true 30) "h" [v4_10m, fe80_1, v6_2] 7
    ⟨fe80_1, by simp, by decide⟩

/-- C3: in one sweep step for the pair `(host, entry)`, the step performs
`delete(d.cache, host)` exactly when the re-resolution fails and
`entry.Timestamp + ttl` seconds is strictly before `now`, and a host present
in the live map is absent afterwards exactly in that case; a failure within
the grace period leaves the state as it was. With `ttl = 30` and an entry
resolved at `t0`, a failure at `t0 + 10s` keeps the entry and `AAAA(host)`
returns the old address, while a failure at `t0 + 31s` removes it and the next
`AAAA(host)` calls the resolver. -/
theorem C3_sweep_grace_period :
    (∀ (d : Dns) (host : String) (entry : CacheEntry) (res : LookupIPResult) (now : Int),
      (deletions (sweepStep d host entry res now).trace = [.mapDelete host] ↔
        (resolutionFails res ∧ entry.Timestamp + ttlDuration d.ttl < now)) ∧
      (¬ (resolutionFails res ∧ entry.Timestamp + ttlDuration d.ttl < now) →
        deletions (sweepStep d host entry res now).trace = []) ∧
      (∀ live, mapGet d.cache host = some live →
        (mapGet (sweepStep d host entry res now).dns.cache host = none ↔
          (resolutionFails res ∧ entry.Timestamp + ttlDuration d.ttl < now))) ∧
      (resolutionFails res → ¬ entry.Timestamp + ttlDuration d.ttl < now →
        (sweepStep d host entry res now).dns = d)) ∧
    (∀ (d : Dns) (host : String) (entry : CacheEntry) (t0 : Int) (res res2 : LookupIPResult)
      (now2 : Int),
      d.ttl = 30 → mapGet d.cache host = some entry → entry.Timestamp = t0 →
      resolutionFails res →
      (mapGet (sweepStep d host entry res (t0 + 10000000000)).dns.cache host = some entry ∧
        (AAAA (sweepStep d host entry res (t0 + 10000000000)).dns host res2 now2).result
          = .ok entry.AAAA) ∧
      (mapGet (sweepStep d host entry res (t0 + 31000000000)).dns.cache host = none ∧
        resolverCalls
          (AAAA (sweepStep d host entry res (t0 + 31000000000)).dns host res2 now2).trace
          = [.lookupIP host res2])) := by
  constructor
  · intro d host entry res now
    by_cases hf : resolutionFails res
    · have hs := sweepStep_fails d host entry res now hf
      by_cases hx : entry.Timestamp + ttlDuration d.ttl < now
      · rw [if_pos hx] at hs
        refine ⟨?_, ?_, ?_, ?_⟩
        · rw [hs]; simp [deletions, hf, hx]
        · intro hn; exact absurd ⟨hf, hx⟩ hn
        · intro live _
          rw [hs]
          simp [hf, hx, mapGet_mapDelete_self]
        · intro _ hn; exact absurd hx hn
      · rw [if_neg hx] at hs
        refine ⟨?_, ?_, ?_, ?_⟩
        · rw [hs]; simp [deletions, hx]
        · intro _; rw [hs]; simp [deletions]
        · intro live hl
          rw [hs]
          simp [hl, hx]
        · intro _ _; rw [hs]
    · have hres : ∃ ips, res = .ok ips := by
        cases res with
        | err e => exact absurd trivial hf
        | ok ips => exact ⟨ips, rfl⟩
      obtain ⟨ips, rfl⟩ := hres
      have hs := sweepStep_found d host entry ips now (exists_isAAAA_of_not_fails ips hf)
      by_cases hc : d.shouldCache = true
      · rw [if_pos hc] at hs
        refine ⟨?_, ?_, ?_, ?_⟩
        · rw [hs]; simp [deletions, hf]
        · intro _; rw [hs]; simp [deletions]
        · intro live _
          rw [hs]
          simp [hf, mapGet_mapSet_self]
        · intro h1; exact absurd h1 hf
      · rw [if_neg hc] at hs
        refine ⟨?_, ?_, ?_, ?_⟩
        · rw [hs]; simp [deletions, hf]
        · intro _; rw [hs]; simp [deletions]
        · intro live hl
          rw [hs]
          simp [hf, hl]
        · intro h1; exact absurd h1 hf
  · intro d host entry t0 res res2 now2 httl hlive hts hf
    have hs1 := sweepStep_fails d host entry res (t0 + 10000000000) hf
    have hs2 := sweepStep_fails d host entry res (t0 + 31000000000) hf
    have hn1 : ¬ entry.Timestamp + ttlDuration d.ttl < t0 + 10000000000 := by
      rw [httl, hts]; simp [ttlDuration]
    have hn2 : entry.Timestamp + ttlDuration d.ttl < t0 + 31000000000 := by
      rw [httl, hts]; simp [ttlDuration]
    rw [if_neg hn1] at hs1
    rw [if_pos hn2] at hs2
    refine ⟨⟨?_, ?_⟩, ?_, ?_⟩
    · rw [hs1]; exact hlive
    · rw [hs1, AAAA_hit d host res2 now2 entry hlive]
    · rw [hs2]; exact mapGet_mapDelete_self _ _
    · rw [hs2]
      have hmiss : mapGet (mapDelete d.cache host) host = none := mapGet_mapDelete_self _ _
      by_cases hf2 : resolutionFails res2
      · obtain ⟨e, _, he⟩ := AAAA_miss_fails { d with cache := mapDelete d.cache host } host res2
          now2 hmiss hf2
        rw [he]; rfl
      · have hres : ∃ ips, res2 = .ok ips := by
          cases res2 with
          | err e => exact absurd trivial hf2
          | ok ips => exact ⟨ips, rfl⟩
        obtain ⟨ips, rfl⟩ := hres
        rw [AAAA_miss_found { d with cache := mapDelete d.cache host } host ips now2 hmiss
          (exists_isAAAA_of_not_fails ips hf2)]
        by_cases hc : d.shouldCache = true
        · simp [hc, resolverCalls]
        · simp [hc, resolverCalls]

/-- C3 at `ttl = 30`, the entry `fe80::1` for `h` resolved at `t0 = 5`, a
resolver that fails with an error. -/
theorem C3_sweep_grace_period_witness :
    (mapGet (sweepStep ⟨true, [("h", ⟨"fe80::1", 5⟩)], 30⟩ "h" ⟨"fe80::1", 5⟩
        (.err (.resolver "no such host")) (5 + 10000000000)).dns.cache "h"
          = some ⟨"fe80::1", 5⟩ ∧
      (AAAA (sweepStep ⟨true, [("h", ⟨"fe80::1", 5⟩)], 30⟩ "h" ⟨"fe80::1", 5⟩
        (.err (.resolver "no such host")) (5 + 10000000000)).dns "h" (.ok [v6_2]) 9).result
          = .ok (CacheEntry.mk "fe80::1" 5).AAAA) ∧
    (mapGet (sweepStep ⟨true, [("h", ⟨"fe80::1", 5⟩)], 30⟩ "h" ⟨"fe80::1", 5⟩
        (.err (.resolver "no such host")) (5 + 31000000000)).dns.cache "h" = none ∧
      resolverCalls (AAAA (sweepStep ⟨true, [("h", ⟨"fe80::1", 5⟩)], 30⟩ "h" ⟨"fe80::1", 5⟩
        (.err (.resolver "no such host")) (5 + 31000000000)).dns "h" (.ok [v6_2]) 9).trace
          = [.lookupIP "h" (.ok [v6_2])]) ∧
    (mapGet (sweepStep ⟨true, [("h", ⟨"fe80::1", 5⟩)], 30⟩ "h" ⟨"fe80::1", 5⟩
        (.ok [v4_10]) 40000000000).dns.cache "h" = none ↔
      (resolutionFails (.ok [v4_10]) ∧
        (CacheEntry.mk "fe80::1" 5).Timestamp
          + ttlDuration (Dns.mk true [("h", ⟨"fe80::1", 5⟩)] 30).ttl < 40000000000)) :=
  ⟨(C3_sweep_grace_period.2 ⟨true, [("h", ⟨"fe80::1", 5⟩)], 30⟩ "h" ⟨"fe80::1", 5⟩ 5
      (.err (.resolver "no such host")) (.ok [v6_2]) 9 rfl rfl rfl trivial).1,
    (C3_sweep_grace_period.2 ⟨true, [("h", ⟨"fe80::1", 5⟩)], 30⟩ "h" ⟨"fe80::1", 5⟩ 5
      (.err (.resolver "no such host")) (.ok [v6_2]) 9 rfl rfl rfl trivial).2,
    (C3_sweep_grace_period.1 ⟨true, [("h", ⟨"fe80::1", 5⟩)], 30⟩ "h" ⟨"fe80::1", 5⟩
      (.ok [v4_10]) 40000000000).2.2.1 ⟨"fe80::1", 5⟩ rfl⟩

/-- C4: with no entry for `h` and either setting of caching, when the resolver
succeeds with addresses that all have `To4() != nil`, `AAAA(h)` returns the
error `could not find AAAA record for h` and the map has no entry for `h`
afterwards (the whole state is the one before the call). -/
theorem C4_no_aaaa_failure (d : Dns) (h : String) (ips : List IP) (now : Int)
    (hmiss : mapGet d.cache h = none) (h4 : ∀ ip ∈ ips, ip.To4 ≠ none) :
    (AAAA d h (.ok ips) now).result
        = .error (.errorf ("could not find AAAA record for " ++ h)) ∧
      mapGet (AAAA d h (.ok ips) now).dns.cache h = none ∧
      (AAAA d h (.ok ips) now).dns = d := by
  have hn : ∀ x ∈ ips, isAAAA x = false := by
    intro x hx
    have := h4 x hx
    simp [isAAAA, this]
  have hl := lookupAAAA_noAAAA d h ips now hn
  have ha : AAAA d h (.ok ips) now =
      ⟨.error (.errorf ("could not find AAAA record for " ++ h)), d,
        [.lock, .mapRead h, .unlock, .lookupIP h (.ok ips)]⟩ := by
    simp [AAAA, hmiss, hl]
  rw [ha]
  exact ⟨rfl, hmiss, rfl⟩

/-- C4 at `NewDns(true, 30)`, host `h`, answer `[10.0.0.1]` in both forms. -/
theorem C4_no_aaaa_failure_witness :
    (AAAA (NewDns true 30) "h" (.ok [v4_10, v4_10m]) 7).result
        = .error (.errorf ("could not find AAAA record for " ++ "h")) ∧
      mapGet (AAAA (NewDns true 30) "h" (.ok [v4_10, v4_10m]) 7).dns.cache "h" = none ∧
      (AAAA (NewDns true 30) "h" (.ok [v4_10, v4_10m]) 7).dns = NewDns true 30 :=
  C4_no_aaaa_failure (NewDns true 30) "h" [v4_10, v4_10m] 7 rfl (by decide)

/-- C5: with no entry for `h`, when the resolver call fails with error `e`,
`AAAA(h)` returns no address and the error `e` itself, and the cache map
after the call is the cache map before it. -/
theorem C5_resolver_error (d : Dns) (h : String) (e : GoError) (now : Int)
    (hmiss : mapGet d.cache h = none) :
    (AAAA d h (.err e) now).result = .error e ∧
      (AAAA d h (.err e) now).dns.cache = d.cache := by
  simp [AAAA, hmiss, lookupAAAA_err]

/-- C5 at a cache holding another host, with the error `no such host`. -/
theorem C5_resolver_error_witness :
    (AAAA ⟨true, [("g", ⟨"::2", 3⟩)], 30⟩ "h" (.err (.resolver "no such host")) 7).result
        = .error (.resolver "no such host") ∧
      (AAAA ⟨true, [("g", ⟨"::2", 3⟩)], 30⟩ "h" (.err (.resolver "no such host")) 7).dns.cache
        = [("g", ⟨"::2", 3⟩)] :=
  C5_resolver_error ⟨true, [("g", ⟨"::2", 3⟩)], 30⟩ "h" (.resolver "no such host") 7
    (by decide)

/-- C7: with caching enabled, a sweep step for `(host, entry)` whose
re-resolution succeeds at time `t` leaves the live map with an entry for
`host` whose `Timestamp` is `t` and whose address is the text of the first
returned address with `To4() == nil` and `To16() != nil`; the step performs no
`delete`, and no other host loses or changes its entry. -/
theorem C7_sweep_refresh (d : Dns) (host : String) (entry : CacheEntry) (ips : List IP)
    (t : Int) (hcache : d.shouldCache = true)
    (hq : ∃ ip ∈ ips, ip.To4 = none ∧ ip.To16 ≠ none) :
    ∃ pre ip post, ips = pre ++ ip :: post ∧
      (∀ x ∈ pre, ¬ (x.To4 = none ∧ x.To16 ≠ none)) ∧
      (ip.To4 = none ∧ ip.To16 ≠ none) ∧
      (lookupAAAA d host (.ok ips) t).result = .ok ⟨ip.string, t⟩ ∧
      mapGet (sweepStep d host entry (.ok ips) t).dns.cache host = some ⟨ip.string, t⟩ ∧
      deletions (sweepStep d host entry (.ok ips) t).trace = [] ∧
      (∀ k, k ≠ host →
        mapGet (sweepStep d host entry (.ok ips) t).dns.cache k = mapGet d.cache k) := by
  have hq2 := exists_isAAAA_of_qualifies ips hq
  obtain ⟨pre, ip, post, e, hp, hi⟩ := exists_first ips hq2
  have hsel : selectAAAA ips = ip.string := by rw [e]; exact selectAAAA_first pre post ip hp hi
  have hs := sweepStep_found d host entry ips t hq2
  have hl := lookupAAAA_found d host ips t hq2
  rw [if_pos hcache, hsel] at hs
  rw [if_pos hcache, hsel] at hl
  refine ⟨pre, ip, post, e, ?_, (isAAAA_iff ip).1 hi, ?_, ?_, ?_, ?_⟩
  · intro x hx hc
    have := hp x hx
    rw [(isAAAA_iff x).2 hc] at this
    exact Bool.noConfusion this
  · rw [hl]
  · rw [hs]; exact mapGet_mapSet_self _ _ _
  · rw [hs]; rfl
  · intro k hk
    rw [hs]
    exact mapGet_mapSet_other _ _ _ _ hk

/-- C7 at `ttl = 30`, the entry `::2` for `h` resolved at `5` and a second host
`g`, and a re-resolution answering `[10.0.0.1, fe80::1]` at `t = 40`. -/
theorem C7_sweep_refresh_witness :
    ∃ pre ip post, [v4_10m, fe80_1] = pre ++ ip :: post ∧
      (∀ x ∈ pre, ¬ (x.To4 = none ∧ x.To16 ≠ none)) ∧
      (ip.To4 = none ∧ ip.To16 ≠ none) ∧
      (lookupAAAA ⟨true, [("h", ⟨"::2", 5⟩), ("g", ⟨"::2", 3⟩)], 30⟩ "h"
        (.ok [v4_10m, fe80_1]) 40).result = .ok ⟨ip.string, 40⟩ ∧
      mapGet (sweepStep ⟨true, [("h", ⟨"::2", 5⟩), ("g", ⟨"::2", 3⟩)], 30⟩ "h" ⟨"::2", 5⟩
        (.ok [v4_10m, fe80_1]) 40).dns.cache "h" = some ⟨ip.string, 40⟩ ∧
      deletions (sweepStep ⟨true, [("h", ⟨"::2", 5⟩), ("g", ⟨"::2", 3⟩)], 30⟩ "h" ⟨"::2", 5⟩
        (.ok [v4_10m, fe80_1]) 40).trace = [] ∧
      (∀ k, k ≠ "h" →
        mapGet (sweepStep ⟨true, [("h", ⟨"::2", 5⟩), ("g", ⟨"::2", 3⟩)], 30⟩ "h" ⟨"::2", 5⟩
          (.ok [v4_10m, fe80_1]) 40).dns.cache k
        = mapGet [("h", ⟨"::2", 5⟩), ("g", ⟨"::2", 3⟩)] k) :=
  C7_sweep_refresh ⟨true, [("h", ⟨"::2", 5⟩), ("g", ⟨"::2", 3⟩)], 30⟩ "h" ⟨"::2", 5⟩
    [v4_10m, fe80_1] 40 rfl ⟨fe80_1, by simp, by decide⟩

/-- C8, as stated, fails: with `ttl = 0`, the entry that `AAAA("h")` stored at
time `5` survives a sweep step whose re-resolution fails when the clock of
that step still reads `5`, since `Before` is strict. -/
theorem C8_ttl_zero_counterexample :
    (AAAA (NewDns true 0) "h" (.ok [fe80_1]) 5).dns.ttl = 0 ∧
      mapGet (AAAA (NewDns true 0) "h" (.ok [fe80_1]) 5).dns.cache "h" = some ⟨"fe80::1", 5⟩ ∧
      resolutionFails (.err (.resolver "no such host")) ∧
      mapGet (sweepStep (AAAA (NewDns true 0) "h" (.ok [fe80_1]) 5).dns "h" ⟨"fe80::1", 5⟩
        (.err (.resolver "no such host")) 5).dns.cache "h" = some ⟨"fe80::1", 5⟩ ∧
      deletions (sweepStep (AAAA (NewDns true 0) "h" (.ok [fe80_1]) 5).dns "h" ⟨"fe80::1", 5⟩
        (.err (.resolver "no such host")) 5).trace = [] := by
  refine ⟨rfl, by decide, trivial, by decide, by decide⟩

/-- C8, amended: with `ttl = 0`, a sweep step for `(host, entry)` whose
re-resolution fails deletes `host` from the live map whenever
`entry.Timestamp` is strictly before the current time of the step. -/
theorem C8_ttl_zero_amended (d : Dns) (host : String) (entry : CacheEntry)
    (res : LookupIPResult) (now : Int) (httl : d.ttl = 0) (hf : resolutionFails res)
    (hlt : entry.Timestamp < now) :
    mapGet (sweepStep d host entry res now).dns.cache host = none ∧
      deletions (sweepStep d host entry res now).trace = [.mapDelete host] := by
  have hs := sweepStep_fails d host entry res now hf
  have hz : entry.Timestamp + ttlDuration d.ttl = entry.Timestamp := by
    rw [httl]; simp [ttlDuration]
  rw [hz, if_pos hlt] at hs
  rw [hs]
  exact ⟨mapGet_mapDelete_self _ _, rfl⟩

/-- C8 amended, at the entry `fe80::1` for `h` stored at `5`, a resolver
error, and a step at time `6`. -/
theorem C8_ttl_zero_amended_witness :
    mapGet (sweepStep ⟨true, [("h", ⟨"fe80::1", 5⟩)], 0⟩ "h" ⟨"fe80::1", 5⟩
        (.err (.resolver "no such host")) 6).dns.cache "h" = none ∧
      deletions (sweepStep ⟨true, [("h", ⟨"fe80::1", 5⟩)], 0⟩ "h" ⟨"fe80::1", 5⟩
        (.err (.resolver "no such host")) 6).trace = [.mapDelete "h"] :=
  C8_ttl_zero_amended ⟨true, [("h", ⟨"fe80::1", 5⟩)], 0⟩ "h" ⟨"fe80::1", 5⟩
    (.err (.resolver "no such host")) 6 rfl trivial (by decide)

/-! ## Facts about traces and runs -/

theorem AAAA_miss (d : Dns) (host : String) (res : LookupIPResult) (now : Int)
    (h : mapGet d.cache host = none) :
    (AAAA d host res now).dns = (lookupAAAA d host res now).dns ∧
      (AAAA d host res now).trace
        = [.lock, .mapRead host, .unlock] ++ (lookupAAAA d host res now).trace := by
  unfold AAAA
  rw [h]
  simp only []
  split <;> exact ⟨rfl, rfl⟩

theorem sweepStep_shape (d : Dns) (host : String) (entry : CacheEntry) (res : LookupIPResult)
    (now : Int) :
    ((sweepStep d host entry res now).dns = (lookupAAAA d host res now).dns ∧
        (sweepStep d host entry res now).trace = (lookupAAAA d host res now).trace) ∨
      ((sweepStep d host entry res now).dns
          = { (lookupAAAA d host res now).dns with
              cache := mapDelete (lookupAAAA d host res now).dns.cache host } ∧
        (sweepStep d host entry res now).trace
          = (lookupAAAA d host res now).trace ++ [.lock, .mapDelete host, .unlock]) := by
  unfold sweepStep
  simp only []
  split
  · exact Or.inl ⟨rfl, rfl⟩
  · split_ifs
    · exact Or.inr ⟨rfl, rfl⟩
    · exact Or.inl ⟨rfl, rfl⟩

theorem lookupAAAA_trace (d : Dns) (host : String) (res : LookupIPResult) (now : Int) :
    (lookupAAAA d host res now).trace = [.lookupIP host res] ∨
      ∃ e, (lookupAAAA d host res now).trace
        = [.lookupIP host res, .lock, .mapWrite host e, .unlock] := by
  by_cases hf : resolutionFails res
  · obtain ⟨e, he⟩ := lookupAAAA_fails d host res now hf
    exact Or.inl (by rw [he])
  · cases res with
    | err e => exact absurd trivial hf
    | ok ips =>
      rw [lookupAAAA_found d host ips now (exists_isAAAA_of_not_fails ips hf)]
      by_cases hc : d.shouldCache = true
      · exact Or.inr ⟨⟨selectAAAA ips, now⟩, by simp [hc]⟩
      · exact Or.inl (by simp [hc])

theorem lookupAAAA_not_cached (d : Dns) (host : String) (res : LookupIPResult) (now : Int)
    (hc : d.shouldCache = false) : (lookupAAAA d host res now).dns = d := by
  by_cases hf : resolutionFails res
  · obtain ⟨e, he⟩ := lookupAAAA_fails d host res now hf
    rw [he]
  · cases res with
    | err e => exact absurd trivial hf
    | ok ips =>
      rw [lookupAAAA_found d host ips now (exists_isAAAA_of_not_fails ips hf)]
      simp [hc]

theorem resolverCalls_append (a b : List Event) :
    resolverCalls (a ++ b) = resolverCalls a ++ resolverCalls b := by
  simp [resolverCalls]

theorem resolverCalls_lookupAAAA (d : Dns) (host : String) (res : LookupIPResult) (now : Int) :
    resolverCalls (lookupAAAA d host res now).trace = [.lookupIP host res] := by
  rcases lookupAAAA_trace d host res now with h | ⟨e, h⟩ <;> rw [h] <;> rfl

theorem resolverCalls_AAAA_miss (d : Dns) (host : String) (res : LookupIPResult) (now : Int)
    (h : mapGet d.cache host = none) :
    resolverCalls (AAAA d host res now).trace = [.lookupIP host res] := by
  rw [(AAAA_miss d host res now h).2, resolverCalls_append, resolverCalls_lookupAAAA]
  rfl

theorem resolverCalls_sweepStep (d : Dns) (host : String) (entry : CacheEntry)
    (res : LookupIPResult) (now : Int) :
    resolverCalls (sweepStep d host entry res now).trace = [.lookupIP host res] := by
  rcases sweepStep_shape d host entry res now with ⟨_, h⟩ | ⟨_, h⟩
  · rw [h, resolverCalls_lookupAAAA]
  · rw [h, resolverCalls_append, resolverCalls_lookupAAAA]
    rfl

theorem lockDiscipline_append (a b : List Event) :
    ∀ held, lockDiscipline held a = true → lockDiscipline false b = true →
      lockDiscipline held (a ++ b) = true := by
  induction a with
  | nil =>
    intro held ha hb
    cases held
    · exact hb
    · simp [lockDiscipline] at ha
  | cons e t ih =>
    intro held ha hb
    cases e <;> simp only [List.cons_append, lockDiscipline, Bool.and_eq_true] at ha ⊢ <;>
      exact ⟨ha.1, ih _ ha.2 hb⟩

theorem lockDiscipline_lookupAAAA (d : Dns) (host : String) (res : LookupIPResult) (now : Int) :
    lockDiscipline false (lookupAAAA d host res now).trace = true := by
  rcases lookupAAAA_trace d host res now with h | ⟨e, h⟩ <;> rw [h] <;> rfl

theorem lockDiscipline_AAAA (d : Dns) (host : String) (res : LookupIPResult) (now : Int) :
    lockDiscipline false (AAAA d host res now).trace = true := by
  cases h : mapGet d.cache host with
  | some cached => rw [AAAA_hit d host res now cached h]; rfl
  | none =>
    rw [(AAAA_miss d host res now h).2]
    exact lockDiscipline_append _ _ false rfl (lockDiscipline_lookupAAAA d host res now)

theorem lockDiscipline_sweepStep (d : Dns) (host : String) (entry : CacheEntry)
    (res : LookupIPResult) (now : Int) :
    lockDiscipline false (sweepStep d host entry res now).trace = true := by
  rcases sweepStep_shape d host entry res now with ⟨_, h⟩ | ⟨_, h⟩
  · rw [h]; exact lockDiscipline_lookupAAAA d host res now
  · rw [h]
    exact lockDiscipline_append _ _ false (lockDiscipline_lookupAAAA d host res now) rfl

theorem lockDiscipline_rangeLoop (env : Nat → Tick) :
    ∀ (n : Nat) (rest : List (String × CacheEntry)) (d : Dns),
      lockDiscipline false (rangeLoop env n rest d).trace = true := by
  intro n
  induction n with
  | zero => intro rest d; rfl
  | succ n ih =>
    intro rest d
    unfold rangeLoop
    split
    · rfl
    · exact lockDiscipline_append _ _ false (lockDiscipline_sweepStep _ _ _ _ _) (ih _ _)

/-- The range loop started with the length of the copy visits every pair:
it makes one resolver call for each. -/
theorem rangeLoop_visits_all (env : Nat → Tick) :
    ∀ (n : Nat) (rest : List (String × CacheEntry)) (d : Dns), rest.length = n →
      (resolverCalls (rangeLoop env n rest d).trace).length = n := by
  intro n
  induction n with
  | zero => intro rest d _; rfl
  | succ n ih =>
    intro rest d hl
    have hlt : (env n).pick % rest.length < rest.length := Nat.mod_lt _ (by omega)
    unfold rangeLoop
    split
    · rename_i hnone
      rw [List.getElem?_eq_none_iff] at hnone
      omega
    · simp only []
      rw [resolverCalls_append, resolverCalls_sweepStep, List.length_append,
        ih _ _ (by rw [List.length_eraseIdx, if_pos hlt]; omega)]
      simp
      omega

/-- C10: the trace of every `AAAA(h)` call, of every `lookupAAAA` call and of
every sweep iteration obeys the lock discipline: each resolver call happens
with the lock free, each map read, copy, write and delete with the lock held,
`Lock` and `Unlock` alternate, and the lock is free at the end. The sweep
iteration makes a resolver call for every pair of its copy. -/
theorem C10_lock_never_held_across_resolver :
    (∀ (d : Dns) (h : String) (res : LookupIPResult) (now : Int),
      lockDiscipline false (AAAA d h res now).trace = true) ∧
    (∀ (d : Dns) (h : String) (res : LookupIPResult) (now : Int),
      lockDiscipline false (lookupAAAA d h res now).trace = true) ∧
    (∀ (d : Dns) (env : Nat → Tick),
      lockDiscipline false (cacheWorkerIteration d env).trace = true ∧
      (resolverCalls (cacheWorkerIteration d env).trace).length = d.cache.length) := by
  refine ⟨lockDiscipline_AAAA, lockDiscipline_lookupAAAA, ?_⟩
  intro d env
  constructor
  · exact lockDiscipline_append [.lock, .mapCopy, .unlock] _ false rfl
      (lockDiscipline_rangeLoop env _ _ _)
  · show (resolverCalls ([Event.lock, Event.mapCopy, Event.unlock] ++
      (rangeLoop env d.cache.length d.cache d).trace)).length = d.cache.length
    rw [resolverCalls_append, List.length_append, rangeLoop_visits_all env _ _ _ rfl]
    simp [resolverCalls]

/-! ## Runs with caching disabled -/

theorem aaaaCalls_cons (a : Action) (rest : List Action) :
    aaaaCalls (a :: rest) = aaaaCalls [a] ++ aaaaCalls rest := by
  cases a <;> rfl

theorem step_not_cached (s s1 : Sys) (a : Action) (t : List Event)
    (hc : s.dns.shouldCache = false) (he : s.dns.cache = []) (hw : s.cacheCopy = [])
    (hstep : step s a = some (s1, t)) :
    s1.dns.shouldCache = false ∧ s1.dns.cache = [] ∧ s1.cacheCopy = [] ∧
      resolverCalls t = aaaaCalls [a] := by
  cases a with
  | callAAAA host res now =>
    simp only [step, Option.some.injEq, Prod.mk.injEq] at hstep
    obtain ⟨rfl, rfl⟩ := hstep
    have hmiss : mapGet s.dns.cache host = none := by rw [he]; rfl
    have hd : (AAAA s.dns host res now).dns = s.dns := by
      rw [(AAAA_miss s.dns host res now hmiss).1, lookupAAAA_not_cached _ _ _ _ hc]
    simp only [hd]
    exact ⟨hc, he, hw, resolverCalls_AAAA_miss _ _ _ _ hmiss⟩
  | workerCopy =>
    simp only [step, hw, List.isEmpty_nil, if_true, Option.some.injEq, Prod.mk.injEq] at hstep
    obtain ⟨rfl, rfl⟩ := hstep
    exact ⟨hc, he, he, rfl⟩
  | workerVisit pick res now =>
    simp [step, hw] at hstep

theorem run_not_cached (acts : List Action) :
    ∀ (s s2 : Sys) (tr : List Event),
      s.dns.shouldCache = false → s.dns.cache = [] → s.cacheCopy = [] →
      run s acts = some (s2, tr) →
      s2.dns.cache = [] ∧ resolverCalls tr = aaaaCalls acts := by
  induction acts with
  | nil =>
    intro s s2 tr _ he _ hrun
    simp only [run, Option.some.injEq, Prod.mk.injEq] at hrun
    obtain ⟨rfl, rfl⟩ := hrun
    exact ⟨he, rfl⟩
  | cons a rest ih =>
    intro s s2 tr hc he hw hrun
    unfold run at hrun
    split at hrun
    · exact absurd hrun (by simp)
    · rename_i s1 t1 hstep
      split at hrun
      · exact absurd hrun (by simp)
      · rename_i s3 t2 hrest
        simp only [Option.some.injEq, Prod.mk.injEq] at hrun
        obtain ⟨rfl, rfl⟩ := hrun
        obtain ⟨hc1, he1, hw1, hcalls⟩ := step_not_cached s s1 a t1 hc he hw hstep
        obtain ⟨he2, hcalls2⟩ := ih s1 s3 t2 hc1 he1 hw1 hrest
        refine ⟨he2, ?_⟩
        rw [resolverCalls_append, hcalls, hcalls2, ← aaaaCalls_cons]

/-- C6: from `NewDns(false, ttl)`, after any sequence of `AAAA` calls and
worker steps under any resolver answers, the cache map is empty; the resolver
calls of the run are those of its `AAAA` calls, one each in order; and an
`AAAA(h)` call in the state reached makes exactly one resolver call, for `h`. -/
theorem C6_caching_disabled (ttl : Nat) (acts : List Action) (s : Sys) (tr : List Event)
    (hrun : run (start false ttl) acts = some (s, tr)) :
    s.dns.cache = [] ∧ resolverCalls tr = aaaaCalls acts ∧
      ∀ (h : String) (res : LookupIPResult) (now : Int),
        resolverCalls (AAAA s.dns h res now).trace = [.lookupIP h res] := by
  obtain ⟨he, hcalls⟩ := run_not_cached acts (start false ttl) s tr rfl rfl rfl hrun
  refine ⟨he, hcalls, ?_⟩
  intro h res now
  exact resolverCalls_AAAA_miss _ _ _ _ (by rw [he]; rfl)

/-- C6 at `NewDns(false, 30)`: two successful `AAAA("h")` calls with a worker
iteration in between. -/
theorem C6_caching_disabled_witness :
    run (start false 30)
        [.callAAAA "h" (.ok [fe80_1]) 5, .workerCopy, .callAAAA "h" (.ok [fe80_1]) 6]
      = some (start false 30,
          [.lock, .mapRead "h", .unlock, .lookupIP "h" (.ok [fe80_1]),
            .lock, .mapCopy, .unlock,
            .lock, .mapRead "h", .unlock, .lookupIP "h" (.ok [fe80_1])]) ∧
    ((start false 30).dns.cache = [] ∧
      resolverCalls [.lock, .mapRead "h", .unlock, .lookupIP "h" (.ok [fe80_1]),
            .lock, .mapCopy, .unlock,
            .lock, .mapRead "h", .unlock, .lookupIP "h" (.ok [fe80_1])]
        = aaaaCalls
          [.callAAAA "h" (.ok [fe80_1]) 5, .workerCopy, .callAAAA "h" (.ok [fe80_1]) 6] ∧
      ∀ (h : String) (res : LookupIPResult) (now : Int),
        resolverCalls (AAAA (start false 30).dns h res now).trace = [.lookupIP h res]) :=
  ⟨by rfl, C6_caching_disabled 30 _ _ _ (by rfl)⟩

/-! ## The invariant of the cache map -/

theorem EntryJustified.mono {tr tr2 : List Event} {p : String × CacheEntry}
    (hsub : ∀ e ∈ tr, e ∈ tr2) (h : EntryJustified tr p) : EntryJustified tr2 p := by
  obtain ⟨hne, ips, ip, hmem, hip, hq, heq⟩ := h
  exact ⟨hne, ips, ip, hsub _ hmem, hip, hq, heq⟩

theorem lookupAAAA_inv (d : Dns) (host : String) (res : LookupIPResult) (now : Int)
    (tr : List Event) (hinv : ∀ p ∈ d.cache, EntryJustified tr p) :
    ∀ p ∈ (lookupAAAA d host res now).dns.cache,
      EntryJustified (tr ++ (lookupAAAA d host res now).trace) p := by
  by_cases hf : resolutionFails res
  · obtain ⟨e, he⟩ := lookupAAAA_fails d host res now hf
    rw [he]
    intro p hp
    exact (hinv p hp).mono (fun e he => List.mem_append_left _ he)
  · cases res with
    | err e => exact absurd trivial hf
    | ok ips =>
      have hq := exists_isAAAA_of_not_fails ips hf
      rw [lookupAAAA_found d host ips now hq]
      by_cases hc : d.shouldCache = true
      · rw [if_pos hc]
        intro p hp
        simp only [mapSet, List.mem_cons] at hp
        rcases hp with rfl | hp
        · obtain ⟨pre, ip, post, e, hpre, hi⟩ := exists_first ips hq
          have hsel : selectAAAA ips = ip.string := by
            rw [e]; exact selectAAAA_first pre post ip hpre hi
          refine ⟨?_, ips, ip, by simp, by rw [e]; simp, (isAAAA_iff ip).1 hi, hsel⟩
          intro hempty
          have hpos := string_length_of_isAAAA hi
          simp only [] at hempty
          rw [← hsel, hempty] at hpos
          exact absurd hpos (by decide)
        · exact (hinv p (mem_mapDelete hp).1).mono (fun e he => List.mem_append_left _ he)
      · rw [if_neg hc]
        intro p hp
        exact (hinv p hp).mono (fun e he => List.mem_append_left _ he)

theorem step_inv (s s1 : Sys) (a : Action) (t tr : List Event)
    (hinv : ∀ p ∈ s.dns.cache, EntryJustified tr p) (hstep : step s a = some (s1, t)) :
    ∀ p ∈ s1.dns.cache, EntryJustified (tr ++ t) p := by
  cases a with
  | callAAAA host res now =>
    simp only [step, Option.some.injEq, Prod.mk.injEq] at hstep
    obtain ⟨rfl, rfl⟩ := hstep
    simp only []
    cases hget : mapGet s.dns.cache host with
    | some cached =>
      rw [AAAA_hit s.dns host res now cached hget]
      intro p hp
      exact (hinv p hp).mono (fun e he => List.mem_append_left _ he)
    | none =>
      obtain ⟨hd, ht⟩ := AAAA_miss s.dns host res now hget
      rw [hd, ht]
      intro p hp
      refine (lookupAAAA_inv s.dns host res now tr hinv p hp).mono ?_
      intro e he
      rcases List.mem_append.1 he with h1 | h1
      · exact List.mem_append_left _ h1
      · exact List.mem_append_right _ (List.mem_append_right _ h1)
  | workerCopy =>
    simp only [step] at hstep
    split_ifs at hstep
    simp only [Option.some.injEq, Prod.mk.injEq] at hstep
    obtain ⟨rfl, rfl⟩ := hstep
    intro p hp
    exact (hinv p hp).mono (fun e he => List.mem_append_left _ he)
  | workerVisit pick res now =>
    simp only [step] at hstep
    split at hstep
    · exact absurd hstep (by simp)
    · rename_i host entry _
      simp only [Option.some.injEq, Prod.mk.injEq] at hstep
      obtain ⟨rfl, rfl⟩ := hstep
      simp only []
      intro p hp
      rcases sweepStep_shape s.dns host entry res now with ⟨hd, ht⟩ | ⟨hd, ht⟩
      · rw [hd] at hp
        rw [ht]
        exact lookupAAAA_inv s.dns host res now tr hinv p hp
      · rw [hd] at hp
        rw [ht]
        refine (lookupAAAA_inv s.dns host res now tr hinv p (mem_mapDelete hp).1).mono ?_
        intro e he
        rcases List.mem_append.1 he with h1 | h1
        · exact List.mem_append_left _ h1
        · exact List.mem_append_right _ (List.mem_append_left _ h1)

theorem run_inv (acts : List Action) :
    ∀ (s s2 : Sys) (tr0 tr : List Event),
      (∀ p ∈ s.dns.cache, EntryJustified tr0 p) → run s acts = some (s2, tr) →
      ∀ p ∈ s2.dns.cache, EntryJustified (tr0 ++ tr) p := by
  induction acts with
  | nil =>
    intro s s2 tr0 tr hinv hrun
    simp only [run, Option.some.injEq, Prod.mk.injEq] at hrun
    obtain ⟨rfl, rfl⟩ := hrun
    simpa using hinv
  | cons a rest ih =>
    intro s s2 tr0 tr hinv hrun
    unfold run at hrun
    split at hrun
    · exact absurd hrun (by simp)
    · rename_i s1 t1 hstep
      split at hrun
      · exact absurd hrun (by simp)
      · rename_i s3 t2 hrest
        simp only [Option.some.injEq, Prod.mk.injEq] at hrun
        obtain ⟨rfl, rfl⟩ := hrun
        have h1 := step_inv s s1 a t1 tr0 hinv hstep
        have h2 := ih s1 s3 (tr0 ++ t1) t2 h1 hrest
        rw [List.append_assoc] at h2
        exact h2

theorem step_failing (s s1 : Sys) (a : Action) (t : List Event)
    (hstep : step s a = some (s1, t)) (hf : failingStep a) :
    (∀ p ∈ s1.dns.cache, p ∈ s.dns.cache) ∧ writes t = [] := by
  cases a with
  | callAAAA host res now =>
    simp only [step, Option.some.injEq, Prod.mk.injEq] at hstep
    obtain ⟨rfl, rfl⟩ := hstep
    simp only []
    cases hget : mapGet s.dns.cache host with
    | some cached =>
      rw [AAAA_hit s.dns host res now cached hget]
      exact ⟨fun p hp => hp, rfl⟩
    | none =>
      obtain ⟨e, _, he⟩ := AAAA_miss_fails s.dns host res now hget hf
      rw [he]
      exact ⟨fun p hp => hp, rfl⟩
  | workerCopy => exact absurd hf id
  | workerVisit pick res now =>
    simp only [step] at hstep
    split at hstep
    · exact absurd hstep (by simp)
    · rename_i host entry _
      simp only [Option.some.injEq, Prod.mk.injEq] at hstep
      obtain ⟨rfl, rfl⟩ := hstep
      simp only []
      rw [sweepStep_fails s.dns host entry res now hf]
      split_ifs
      · exact ⟨fun p hp => (mem_mapDelete hp).1, rfl⟩
      · exact ⟨fun p hp => hp, rfl⟩

/-- C9: in every state reached from `NewDns(cache, ttl)` by `AAAA` calls and
worker steps under any resolver answers, every entry of the cache map has a
non-empty address that is the text of an address with `To4() == nil` and
`To16() != nil` returned by a resolver call of the run for that entry's host;
and a step whose resolution fails (resolver error, or no such address) writes
nothing to the map and leaves it with no entry it did not have before. -/
theorem C9_entries_valid :
    (∀ (cache : Bool) (ttl : Nat) (acts : List Action) (s : Sys) (tr : List Event),
      run (start cache ttl) acts = some (s, tr) →
      ∀ p ∈ s.dns.cache, EntryJustified tr p) ∧
    (∀ (s s1 : Sys) (a : Action) (t : List Event),
      step s a = some (s1, t) → failingStep a →
      (∀ p ∈ s1.dns.cache, p ∈ s.dns.cache) ∧ writes t = []) := by
  refine ⟨?_, step_failing⟩
  intro cache ttl acts s tr hrun
  have h := run_inv acts (start cache ttl) s [] tr (by intro p hp; cases hp) hrun
  simpa using h

/-- C9 at the run `demoActions` from `NewDns(true, 30)`, and at a failing
`AAAA("k")` call in the state it reaches. -/
theorem C9_entries_valid_witness :
    (run (start true 30) demoActions = some (demoState, demoTrace) ∧
      ∀ p ∈ demoState.dns.cache, EntryJustified demoTrace p) ∧
    (step demoState (.callAAAA "k" (.ok [v4_10]) 12)
        = some (demoState, [.lock, .mapRead "k", .unlock, .lookupIP "k" (.ok [v4_10])]) ∧
      failingStep (.callAAAA "k" (.ok [v4_10]) 12) ∧
      (∀ p ∈ demoState.dns.cache, p ∈ demoState.dns.cache) ∧
      writes [.lock, .mapRead "k", .unlock, .lookupIP "k" (.ok [v4_10])] = []) :=
  ⟨⟨by rfl, C9_entries_valid.1 true 30 demoActions demoState demoTrace (by rfl)⟩,
    by rfl, by simp [failingStep, resolutionFails, v4_10, IP.To4],
    C9_entries_valid.2 demoState demoState (.callAAAA "k" (.ok [v4_10]) 12) _ (by rfl)
      (by simp [failingStep, resolutionFails, v4_10, IP.To4])⟩

end DnsCache
